import Mathlib

/-!
Shallow embedding of the chart-gallery pivot engine of the APMS analytics
dashboard (`src/fe/pages/comprehensive-dashboard.tsx`, `Gallery` component),
together with a model of the spec-described ranked categorical totals view
(whose backend implementation is not part of the sources here).

JS dynamic values are embedded as `Val` (strings, integer numbers, `null`,
`undefined`); JS strict equality `===` restricted to this universe coincides
with equality of `Val`.
-/

namespace APMS

/-- JS values occurring in the analytics tables: strings, (integer) numbers,
`null` and `undefined`. -/
inductive Val : Type
  | str (s : String)
  | num (n : Int)
  | null
  | undef
deriving DecidableEq, Repr

/-- The composite group identifier `_id` of a raw grouped record: either an
object of key/value pairs (in insertion order) or a scalar. -/
inductive CompId : Type
  | obj (kvs : List (String × Val))
  | scalar (v : Val)
deriving DecidableEq, Repr

/-- A raw grouped record; the pivot code reads only its `_id` field. -/
structure RawRecord : Type where
  _id : CompId
deriving DecidableEq, Repr

/-- The `data` consumed by the Gallery pivot: `{ columns, rows, raw }`. -/
structure TabularResult : Type where
  columns : List String
  rows : List (List Val)
  raw : List RawRecord
deriving DecidableEq, Repr

/-- One chart series: `{ name, data }`, the point values aligned to the
shared category axis. -/
structure Series : Type where
  name : String
  data : List Val
deriving DecidableEq, Repr

/-- JS `Array.prototype.indexOf` on a string array: first index, `-1` if absent. -/
def jsIndexOf (l : List String) (s : String) : Int :=
  match l.findIdx? (fun c => c == s) with
  | some i => Int.ofNat i
  | none => -1

/-- JS index access `r[i]` on an array of values: `undefined` out of range. -/
def jsRowGet (r : List Val) (i : Int) : Val :=
  if i < 0 then Val.undef else r.getD i.toNat Val.undef

/-- JS `String(g)`. -/
def jsToString : Val → String
  | Val.str s => s
  | Val.num n => toString n
  | Val.null => "null"
  | Val.undef => "undefined"

/-- JS nullish coalescing `v ?? dflt`. -/
def jsNullish (v dflt : Val) : Val :=
  match v with
  | Val.null => dflt
  | Val.undef => dflt
  | v => v

/-- JS property access `id[k]` on a composite identifier: object lookup in
insertion order, `undefined` when the key is missing. Access on a primitive
yields `undefined` (the identifiers produced by the grouping stage are
objects or non-null scalars). -/
def idGet : CompId → String → Val
  | CompId.obj kvs, k =>
    match kvs.find? (fun p => p.1 == k) with
    | some p => p.2
    | none => Val.undef
  | CompId.scalar _, _ => Val.undef

/-- `data.raw[idx]._id[k]`; an out-of-range index is modelled as `undefined`
(the pivot only reaches in-range indices on 1:1-aligned tables). -/
def rawIdAt (raw : List RawRecord) (idx : Nat) (k : String) : Val :=
  match raw.get? idx with
  | some rec => idGet rec._id k
  | none => Val.undef

/-- `Array.from(new Set(xs))`: first-occurrence-preserving deduplication,
with an accumulator of the elements already seen. -/
def dedupFirstAux {α : Type} [DecidableEq α] : List α → List α → List α
  | [], _ => []
  | x :: xs, seen =>
    if x ∈ seen then dedupFirstAux xs seen else x :: dedupFirstAux xs (x :: seen)

/-- First-occurrence-preserving deduplication (JS `Set` iteration order). -/
def dedupFirst {α : Type} [DecidableEq α] (l : List α) : List α :=
  dedupFirstAux l []

/-- `const tIndex = cols.indexOf('t')`. -/
def tIndex (d : TabularResult) : Int := jsIndexOf d.columns "t"

/-- `const catCols = cols.filter(c => c !== 't' && c !== 'count' && c !== 'events' && c !== 'tons' && c !== 'duration')`
(computed by the source but never consulted afterwards). -/
def catCols (cols : List String) : List String :=
  cols.filter (fun c =>
    c != "t" && c != "count" && c != "events" && c != "tons" && c != "duration")

/-- The fixed metric-name priority list `['tons', 'events', 'count', 'duration']`. -/
def metricPriorityList : List String := ["tons", "events", "count", "duration"]

/-- `const metric = ['tons','events','count','duration'].find(m => cols.includes(m)) || cols[cols.length - 1]`;
`none` stands for `undefined` (priority search missed and `cols` is empty). -/
def selectMetric (cols : List String) : Option String :=
  match metricPriorityList.find? (fun m => cols.contains m) with
  | some m => some m
  | none => cols.getLast?

/-- `cols.indexOf(metric)` (`-1` when `metric` is `undefined`). -/
def metricIndex (cols : List String) : Int :=
  match selectMetric cols with
  | some m => jsIndexOf cols m
  | none => -1

/-- `const categories = Array.from(new Set(rows.map(r => tIndex >= 0 ? r[tIndex] : '')))`. -/
def categories (d : TabularResult) : List Val :=
  dedupFirst (d.rows.map (fun r =>
    if 0 ≤ tIndex d then jsRowGet r (tIndex d) else Val.str ""))

/-- `const seriesBy = data.raw && data.raw.length && typeof data.raw[0]._id === 'object' ? Object.keys(data.raw[0]._id).filter(k => k !== 't')[0] : undefined`. -/
def seriesBy : List RawRecord → Option String
  | [] => none
  | r :: _ =>
    match r._id with
    | CompId.obj kvs => ((kvs.map Prod.fst).filter (fun k => k != "t")).head?
    | CompId.scalar _ => none

/-- The second conjunct of the per-cell row search,
`!seriesBy || data.raw[idx]._id[seriesBy] === g`
(`seriesBy` is falsy when `undefined` or the empty string). -/
def splitOk (raw : List RawRecord) (idx : Nat) (g : Val) : Bool :=
  match seriesBy raw with
  | none => true
  | some k => if k = "" then true else rawIdAt raw idx k == g

/-- `const groups = seriesBy ? Array.from(new Set(data.raw.map(r => r._id[seriesBy] ?? 'Unknown'))) : ['Series']`. -/
def groups (raw : List RawRecord) : List Val :=
  match seriesBy raw with
  | none => [Val.str "Series"]
  | some k =>
    if k = "" then [Val.str "Series"]
    else dedupFirst (raw.map (fun r => jsNullish (idGet r._id k) (Val.str "Unknown")))

/-- JS `Array.prototype.find((r, idx) => ...)`, the element index starting at `n`. -/
def findFrom {α : Type} (p : α → Nat → Bool) : List α → Nat → Option α
  | [], _ => none
  | r :: rs, i => if p r i then some r else findFrom p rs (i + 1)

/-- The row predicate of the per-cell lookup:
`(tIndex >= 0 ? r[tIndex] === c : true) && (!seriesBy || data.raw[idx]._id[seriesBy] === g)`. -/
def cellPred (d : TabularResult) (g c : Val) (r : List Val) (idx : Nat) : Bool :=
  (if 0 ≤ tIndex d then jsRowGet r (tIndex d) == c else true) && splitOk d.raw idx g

/-- One emitted point: `found ? found[mIndex] : 0` where
`found = rows.find((r, idx) => ...)` and `mIndex = cols.indexOf(metric)`. -/
def cellValue (d : TabularResult) (g c : Val) : Val :=
  match findFrom (cellPred d g c) d.rows 0 with
  | some r => jsRowGet r (metricIndex d.columns)
  | none => Val.num 0

/-- `data: categories.map(c => ...)` for one split value `g`. -/
def seriesData (d : TabularResult) (g : Val) : List Val :=
  (categories d).map (fun c => cellValue d g c)

/-- `const series = groups.map(g => ({ name: String(g), ..., data: categories.map(...) }))`:
the pivot of one Tabular Result into aligned chart series. -/
def pivot (d : TabularResult) : List Series :=
  (groups d.raw).map (fun g => { name := jsToString g, data := seriesData d g })

/-- Modelled from the spec: one grouped record as the Result Normalizer sees
it — the time-bucket value, the values of the declared `by` fields (in
declared order) and the computed metric values. The backend normalizer is
not among the sources here; only its frontend consumer is. -/
structure GroupedRecord : Type where
  tval : Val
  byVals : List Val
  metricVals : List Val
deriving DecidableEq, Repr

/-- Modelled from the spec: the backend Result Normalizer (absent from the
sources; only its frontend consumer is present). Per the spec, column order
is the time column `t`, then each `by` field in declared order, then each
metric name; each record's composite key (`t` plus the `by` values) fills
the key columns and its metric values the rest, and `raw` keeps the grouped
records 1:1 with `rows`, the composite identifier being an object with the
key `t` first and one key per `by` field in declared order. -/
def normalize (bys : List String) (mets : List String) (recs : List GroupedRecord) :
    TabularResult :=
  { columns := "t" :: (bys ++ mets)
  , rows := recs.map (fun r => r.tval :: (r.byVals ++ r.metricVals))
  , raw := recs.map (fun r => ⟨CompId.obj (("t", r.tval) :: bys.zip r.byVals)⟩) }

/-- Modelled from the spec: grouping of category/value pairs into per-category
sums, categories in first-occurrence order (the grouping step of the ranked
categorical totals view, whose backend is absent from the sources). -/
def groupSums (pairs : List (String × Int)) : List (String × Int) :=
  (dedupFirst (pairs.map Prod.fst)).map (fun k =>
    (k, ((pairs.filter (fun p => p.1 == k)).map Prod.snd).sum))

/-- The descending-by-metric order of the ranked categorical totals view. -/
def paretoGE (a b : String × Int) : Prop := b.2 ≤ a.2

instance : DecidableRel paretoGE := fun a b => inferInstanceAs (Decidable (b.2 ≤ a.2))

instance : IsTotal (String × Int) paretoGE := ⟨fun a b => le_total b.2 a.2⟩

instance : IsTrans (String × Int) paretoGE := ⟨fun _ _ _ h1 h2 => le_trans h2 h1⟩

/-- Modelled from the spec: the ranked categorical totals ("pareto") view —
group by the categorical field, then sort the groups by the metric
descending, then apply `limit`. Its backend implementation is absent from
the sources (the frontend only fetches its output). -/
def paretoItems (pairs : List (String × Int)) (limit : Nat) : List (String × Int) :=
  (List.insertionSort paretoGE (groupSums pairs)).take limit

/-- Follows the claim's words, not the source: the category axis taken from
column `t` when present, otherwise from the first non-metric column. Compared
against `categories` (the source's axis) for claim C3. -/
def claimAxis (d : TabularResult) : List Val :=
  if 0 ≤ tIndex d then
    dedupFirst (d.rows.map (fun r => jsRowGet r (tIndex d)))
  else
    match (catCols d.columns).head? with
    | some c0 => dedupFirst (d.rows.map (fun r => jsRowGet r (jsIndexOf d.columns c0)))
    | none => []

/-- The pivot specialised to one explicit split key `k`: every consultation of
the split dimension reads exactly the key `k` of a record's composite
identifier and nothing else. Compared against `pivot` for claim C9. -/
def pivotOnKey (d : TabularResult) (k : String) : List Series :=
  (dedupFirst (d.raw.map (fun r => jsNullish (idGet r._id k) (Val.str "Unknown")))).map
    (fun g =>
      { name := jsToString g
      , data := (categories d).map (fun c =>
          match findFrom (fun r idx =>
              (if 0 ≤ tIndex d then jsRowGet r (tIndex d) == c else true)
              && (rawIdAt d.raw idx k == g)) d.rows 0 with
          | some r => jsRowGet r (metricIndex d.columns)
          | none => Val.num 0) })

/-- Concrete table for the C1 witness: one day, one split value. -/
def d1w : TabularResult :=
  { columns := ["t", "k", "count"]
  , rows := [[Val.str "d1", Val.str "A", Val.num 2]]
  , raw := [⟨CompId.obj [("t", Val.str "d1"), ("k", Val.str "A")]⟩] }

/-- Concrete table for the C2 witness. -/
def d2w : TabularResult :=
  { columns := ["t", "count"]
  , rows := [[Val.str "d1", Val.num 5]]
  , raw := [⟨CompId.obj [("t", Val.str "d1")]⟩] }

/-- Concrete table for the C3 counterexample and witness: no `t` column, a
non-metric first column with two distinct values. -/
def d3c : TabularResult :=
  { columns := ["name", "count"]
  , rows := [[Val.str "a", Val.num 1], [Val.str "b", Val.num 2]]
  , raw := [⟨CompId.scalar (Val.str "a")⟩, ⟨CompId.scalar (Val.str "b")⟩] }

/-- Concrete table for the C3 witness: `t` column present with a repeated day. -/
def d3w : TabularResult :=
  { columns := ["t", "count"]
  , rows := [[Val.str "d1", Val.num 1], [Val.str "d2", Val.num 2], [Val.str "d1", Val.num 3]]
  , raw := [⟨CompId.obj [("t", Val.str "d1")]⟩, ⟨CompId.obj [("t", Val.str "d2")]⟩,
            ⟨CompId.obj [("t", Val.str "d1")]⟩] }

/-- Concrete grouped records for the C4 witness: two split values on one day. -/
def c4recs : List GroupedRecord :=
  [⟨Val.str "d1", [Val.str "A"], [Val.num 2]⟩, ⟨Val.str "d1", [Val.str "B"], [Val.num 3]⟩]

/-- Concrete table for the C6 witness. -/
def d6w : TabularResult :=
  { columns := ["t", "events"]
  , rows := [[Val.str "d1", Val.num 3], [Val.str "d2", Val.num 1]]
  , raw := [⟨CompId.obj [("t", Val.str "d1")]⟩, ⟨CompId.obj [("t", Val.str "d2")]⟩] }

/-- Concrete table for the C7 counterexample: no columns at all, so the
selected metric names no column of the table. -/
def d7c : TabularResult :=
  { columns := []
  , rows := [[Val.num 5]]
  , raw := [⟨CompId.scalar (Val.str "x")⟩] }

/-- Concrete table for the C7 witness. -/
def d7w : TabularResult :=
  { columns := ["t", "count"]
  , rows := [[Val.str "d1", Val.num 4]]
  , raw := [⟨CompId.obj [("t", Val.str "d1")]⟩] }

/-- Concrete table for the C9 witness: two `by` keys in the identifier; the
second one is ignored by the pivot. -/
def d9w : TabularResult :=
  { columns := ["t", "k", "j", "count"]
  , rows := [[Val.str "d1", Val.str "A", Val.str "x", Val.num 2],
             [Val.str "d2", Val.str "B", Val.str "y", Val.num 3]]
  , raw := [⟨CompId.obj [("t", Val.str "d1"), ("k", Val.str "A"), ("j", Val.str "x")]⟩,
            ⟨CompId.obj [("t", Val.str "d2"), ("k", Val.str "B"), ("j", Val.str "y")]⟩] }

/-- Concrete table for the C10 witness: the single record's split value is
`null`, so its series is named `Unknown` and never matches a row. -/
def d10w : TabularResult :=
  { columns := ["t", "count"]
  , rows := [[Val.str "d1", Val.num 7]]
  , raw := [⟨CompId.obj [("t", Val.str "d1"), ("k", Val.null)]⟩] }

/-! ## Helper lemmas -/

theorem mem_dedupFirstAux {α : Type} [DecidableEq α] :
    ∀ (l seen : List α) (a : α), a ∈ dedupFirstAux l seen ↔ a ∈ l ∧ a ∉ seen := by
  intro l
  induction l with
  | nil => intro seen a; simp [dedupFirstAux]
  | cons x xs ih =>
    intro seen a
    simp only [dedupFirstAux]
    by_cases hx : x ∈ seen
    · rw [if_pos hx]
      simp only [ih, List.mem_cons]
      constructor
      · rintro ⟨h1, h2⟩
        exact ⟨Or.inr h1, h2⟩
      · rintro ⟨h1 | h1, h2⟩
        · exact absurd (h1 ▸ hx) h2
        · exact ⟨h1, h2⟩
    · rw [if_neg hx]
      simp only [List.mem_cons, ih]
      constructor
      · rintro (rfl | ⟨h1, h2⟩)
        · exact ⟨Or.inl rfl, hx⟩
        · exact ⟨Or.inr h1, fun hs => h2 (Or.inr hs)⟩
      · rintro ⟨rfl | h1, h2⟩
        · exact Or.inl rfl
        · by_cases hax : a = x
          · exact Or.inl hax
          · exact Or.inr ⟨h1, fun hs => hs.elim hax h2⟩

theorem mem_dedupFirst {α : Type} [DecidableEq α] (l : List α) (a : α) :
    a ∈ dedupFirst l ↔ a ∈ l := by
  simp [dedupFirst, mem_dedupFirstAux]

theorem nodup_dedupFirstAux {α : Type} [DecidableEq α] :
    ∀ (l seen : List α), (dedupFirstAux l seen).Nodup := by
  intro l
  induction l with
  | nil => intro seen; simp [dedupFirstAux]
  | cons x xs ih =>
    intro seen
    simp only [dedupFirstAux]
    by_cases hx : x ∈ seen
    · rw [if_pos hx]; exact ih seen
    · rw [if_neg hx]
      refine List.nodup_cons.mpr ⟨?_, ih _⟩
      intro hmem
      exact ((mem_dedupFirstAux xs (x :: seen) x).mp hmem).2 (List.mem_cons_self x seen)

theorem nodup_dedupFirst {α : Type} [DecidableEq α] (l : List α) : (dedupFirst l).Nodup :=
  nodup_dedupFirstAux l []

theorem dedupFirstAux_eq_nil {α : Type} [DecidableEq α] :
    ∀ (l seen : List α), (∀ a ∈ l, a ∈ seen) → dedupFirstAux l seen = [] := by
  intro l
  induction l with
  | nil => intro seen _; rfl
  | cons x xs ih =>
    intro seen h
    simp only [dedupFirstAux]
    rw [if_pos (h x (List.mem_cons_self x xs))]
    exact ih seen (fun a ha => h a (List.mem_cons_of_mem _ ha))

theorem dedupFirst_const {α β : Type} [DecidableEq β] (l : List α) (c : β) (h : l ≠ []) :
    dedupFirst (l.map (fun _ => c)) = [c] := by
  cases l with
  | nil => exact absurd rfl h
  | cons x xs =>
    simp only [dedupFirst, List.map_cons, dedupFirstAux]
    rw [if_neg (List.not_mem_nil c)]
    rw [dedupFirstAux_eq_nil (xs.map (fun _ => c)) [c] ?_]
    intro a ha
    rcases List.mem_map.mp ha with ⟨b, _, rfl⟩
    exact List.mem_cons_self c []

theorem findFrom_eq_none {α : Type} (p : α → Nat → Bool) :
    ∀ (l : List α) (n : Nat),
      (∀ i (h : i < l.length), p (l.get ⟨i, h⟩) (n + i) = false) →
      findFrom p l n = none := by
  intro l
  induction l with
  | nil => intro n _; rfl
  | cons x xs ih =>
    intro n h
    simp only [findFrom]
    rw [if_neg]
    · refine ih (n + 1) (fun i hi => ?_)
      have hx := h (i + 1) (Nat.succ_lt_succ hi)
      simpa [Nat.add_comm, Nat.add_left_comm, Nat.add_assoc] using hx
    · have h0 := h 0 (Nat.succ_pos xs.length)
      simp only [List.get, Nat.add_zero] at h0
      simp [h0]

theorem findFrom_eq_get {α : Type} (p : α → Nat → Bool) :
    ∀ (l : List α) (n i : Nat) (h : i < l.length),
      (∀ j (hj : j < l.length), j < i → p (l.get ⟨j, hj⟩) (n + j) = false) →
      p (l.get ⟨i, h⟩) (n + i) = true →
      findFrom p l n = some (l.get ⟨i, h⟩) := by
  intro l
  induction l with
  | nil => intro n i h; exact absurd h (Nat.not_lt_zero i)
  | cons x xs ih =>
    intro n i h hbefore hp
    cases i with
    | zero =>
      simp only [List.get, Nat.add_zero] at hp
      simp [findFrom, hp, List.get]
    | succ i =>
      have h0 := hbefore 0 (Nat.succ_pos xs.length) (Nat.succ_pos i)
      simp only [List.get, Nat.add_zero] at h0
      simp only [findFrom, h0, Bool.false_eq_true, if_false, List.get]
      refine ih (n + 1) i (Nat.lt_of_succ_lt_succ h) (fun j hj hji => ?_) ?_
      · have hx := hbefore (j + 1) (Nat.succ_lt_succ hj) (Nat.succ_lt_succ hji)
        simpa [Nat.add_comm, Nat.add_left_comm, Nat.add_assoc] using hx
      · simpa [Nat.add_comm, Nat.add_left_comm, Nat.add_assoc] using hp

theorem findFrom_mem {α : Type} (p : α → Nat → Bool) :
    ∀ (l : List α) (n : Nat) (r : α), findFrom p l n = some r → r ∈ l := by
  intro l
  induction l with
  | nil => intro n r h; cases h
  | cons x xs ih =>
    intro n r h
    simp only [findFrom] at h
    by_cases hp : p x n
    · rw [if_pos hp] at h
      cases h
      exact List.mem_cons_self x xs
    · rw [if_neg hp] at h
      exact List.mem_cons_of_mem _ (ih _ _ h)

theorem find?_append_cons {α : Type} (p : α → Bool) :
    ∀ (l1 : List α) (a : α) (l2 : List α),
      (∀ x ∈ l1, p x = false) → p a = true →
      (l1 ++ a :: l2).find? p = some a := by
  intro l1
  induction l1 with
  | nil =>
    intro a l2 _ hp
    simp [List.find?_cons_of_pos _ hp]
  | cons x xs ih =>
    intro a l2 h hp
    rw [List.cons_append, List.find?_cons_of_neg _ (by simp [h x (List.mem_cons_self x xs)])]
    exact ih a l2 (fun y hy => h y (List.mem_cons_of_mem _ hy)) hp

/-! ## Claim theorems -/

/-- C2: every Series produced by one pivot call over the same Tabular Result
has length equal to the number of distinct categories (so all series of one
chart share one axis of that common length), and the category axis is
duplicate-free. All series read the one shared `categories` axis, so their
category sequences coincide by construction. -/
theorem pivot_series_same_length (d : TabularResult) (s : Series) (hs : s ∈ pivot d) :
    s.data.length = (categories d).length ∧ (categories d).Nodup := by
  rcases List.mem_map.mp hs with ⟨g, _, rfl⟩
  exact ⟨List.length_map _ _, nodup_dedupFirst _⟩

/-- Witness for C2 on a concrete one-row table. -/
theorem pivot_series_same_length_w :
    (⟨"Series", [Val.num 5]⟩ : Series) ∈ pivot d2w ∧
    ((Series.mk "Series" [Val.num 5]).data.length = (categories d2w).length ∧
      (categories d2w).Nodup) :=
  ⟨by decide, pivot_series_same_length d2w ⟨"Series", [Val.num 5]⟩ (by decide)⟩

/-- C3 (amended): when column `t` is present the category axis is the
first-occurrence deduplication of the `t` values of all rows; when no `t`
column exists, every row contributes the single empty-string category, so the
axis is `[""]` for a non-empty row set and `[]` for an empty one (the first
non-metric column is not consulted). -/
theorem categories_axis (d : TabularResult) :
    (0 ≤ tIndex d →
      categories d = dedupFirst (d.rows.map (fun r => jsRowGet r (tIndex d)))) ∧
    (tIndex d < 0 →
      categories d = if d.rows = [] then [] else [Val.str ""]) := by
  constructor
  · intro ht
    simp [categories, ht]
  · intro ht
    have hneg : ¬ (0 ≤ tIndex d) := by omega
    by_cases hrows : d.rows = []
    · simp [categories, hrows, hneg, dedupFirst, dedupFirstAux]
    · rw [if_neg hrows]
      simp only [categories, hneg, if_false]
      exact dedupFirst_const d.rows (Val.str "") hrows

/-- Witness for C3 on a concrete table with a `t` column and a repeated day. -/
theorem categories_axis_w :
    0 ≤ tIndex d3w ∧
    categories d3w = dedupFirst (d3w.rows.map (fun r => jsRowGet r (tIndex d3w))) :=
  ⟨by decide, (categories_axis d3w).1 (by decide)⟩

/-- Counterexample for C3 as stated: on a table without a time column the
source's axis is the single empty-string category, not the distinct values
of the first non-metric column (`claimAxis` follows the claim's words). -/
theorem categories_axis_cex : categories d3c ≠ claimAxis d3c := by decide

/-- C6: the pivot is a pure function of the Tabular Result, so pivoting the
same table twice yields identical Series with identical category ordering
and identical zero-fill. -/
theorem pivot_deterministic (e1 e2 : TabularResult) (h : e1 = e2) :
    pivot e1 = pivot e2 ∧ categories e1 = categories e2 := by
  subst h
  exact ⟨rfl, rfl⟩

/-- Witness for C6 on a concrete table. -/
theorem pivot_deterministic_w :
    pivot d6w = pivot d6w ∧ categories d6w = categories d6w :=
  pivot_deterministic d6w d6w rfl

/-- C7 (amended): the pivot never fails — every emitted point is either the
selected-metric entry of some row of the table or the zero fill; in
particular no precondition error is raised when the selected metric names no
column (that situation yields `undefined`-valued points, see the
counterexample). -/
theorem pivot_total_zero_fill (d : TabularResult) (s : Series) (v : Val)
    (hs : s ∈ pivot d) (hv : v ∈ s.data) :
    (∃ r ∈ d.rows, v = jsRowGet r (metricIndex d.columns)) ∨ v = Val.num 0 := by
  rcases List.mem_map.mp hs with ⟨g, _, rfl⟩
  rcases List.mem_map.mp hv with ⟨c, _, rfl⟩
  cases hf : findFrom (cellPred d g c) d.rows 0 with
  | some r =>
    exact Or.inl ⟨r, findFrom_mem _ _ _ _ hf, by simp [cellValue, hf]⟩
  | none =>
    exact Or.inr (by simp [cellValue, hf])

/-- Witness for C7 on a concrete table: the single point is the row's metric
value. -/
theorem pivot_total_zero_fill_w :
    (⟨"Series", [Val.num 4]⟩ : Series) ∈ pivot d7w ∧
    Val.num 4 ∈ (Series.mk "Series" [Val.num 4]).data ∧
    ((∃ r ∈ d7w.rows, Val.num 4 = jsRowGet r (metricIndex d7w.columns)) ∨
      Val.num 4 = Val.num 0) :=
  ⟨by decide, by decide,
    pivot_total_zero_fill d7w ⟨"Series", [Val.num 4]⟩ (Val.num 4) (by decide) (by decide)⟩

/-- Counterexample for C7 as stated: on a table whose column list is empty the
selected metric names no column of the table, yet the pivot does not fail
with a precondition error — it returns a series whose point is `undefined`. -/
theorem pivot_no_metric_no_error :
    selectMetric d7c.columns = none ∧ pivot d7c = [⟨"Series", [Val.undef]⟩] := by
  exact ⟨by decide, by decide⟩

/-- C8: the ranked categorical totals ("pareto") view returns a sequence that
is non-increasing in the metric value, of at most `limit` items, the
descending sort being applied after grouping and before the limit; over
categories X:5, Y:9, Z:2 with limit 2 the output is [(Y,9), (X,5)]. The view
is modelled from the spec (its backend is not among the sources). -/
theorem pareto_sorted_limited (pairs : List (String × Int)) (limit : Nat) :
    List.Sorted paretoGE (paretoItems pairs limit) ∧
    (paretoItems pairs limit).length ≤ limit ∧
    paretoItems [("X", 5), ("Y", 9), ("Z", 2)] 2 = [("Y", 9), ("X", 5)] := by
  refine ⟨?_, ?_, by decide⟩
  · have hs := List.sorted_insertionSort paretoGE (groupSums pairs)
    exact List.Pairwise.sublist (List.take_sublist _ _) hs
  · simp only [paretoItems, List.length_take]
    exact min_le_left _ _

/-- C9: the pivot splits on at most one dimension — whenever the split key
`k` is inferred (first key other than `t` of the first raw record's object
identifier, raw non-empty), the pivot coincides with `pivotOnKey d k`, which
consults only the key `k` of each composite identifier; any further key
fields are ignored. When raw is empty or its first identifier is not an
object, no split key is inferred at all. -/
theorem pivot_splits_single_key (d : TabularResult) (k : String)
    (hk : seriesBy d.raw = some k) (hne : k ≠ "") :
    pivot d = pivotOnKey d k ∧
    (∀ rec rest kvs, d.raw = rec :: rest → rec._id = CompId.obj kvs →
      ((kvs.map Prod.fst).filter (fun s => s != "t")).head? = some k) := by
  constructor
  · have hpred : ∀ g : Val, cellPred d g = fun c r idx =>
        (if 0 ≤ tIndex d then jsRowGet r (tIndex d) == c else true)
          && (rawIdAt d.raw idx k == g) := by
      intro g
      funext c r idx
      simp [cellPred, splitOk, hk, hne]
    simp only [pivot, pivotOnKey, seriesData, cellValue, groups, hk, hne, if_false, hpred]
  · intro rec rest kvs hraw hid
    rw [hraw] at hk
    simpa [seriesBy, hid] using hk

/-- Witness for C9 on a concrete two-key table: the pivot equals the
single-key pivot on `k`. -/
theorem pivot_splits_single_key_w : pivot d9w = pivotOnKey d9w "k" :=
  (pivot_splits_single_key d9w "k" (by decide) (by decide)).1

/-- C10: when some raw record's split-key value is null or missing, the
pivot produces a Series named `Unknown`, and if no record's split value is
literally the string `Unknown`, every point of that Series is 0: the
per-cell lookup compares the original raw value with the substituted name
`Unknown` and never matches. -/
theorem pivot_unknown_series_all_zero (d : TabularResult) (k : String)
    (hk : seriesBy d.raw = some k) (hne : k ≠ "")
    (hnull : ∃ r ∈ d.raw, idGet r._id k = Val.null ∨ idGet r._id k = Val.undef)
    (hnotU : ∀ r ∈ d.raw, idGet r._id k ≠ Val.str "Unknown") :
    ∃ s ∈ pivot d, s.name = "Unknown" ∧ ∀ v ∈ s.data, v = Val.num 0 := by
  have hg : Val.str "Unknown" ∈ groups d.raw := by
    rcases hnull with ⟨r, hr, hcase⟩
    simp only [groups, hk, hne, if_false]
    rw [mem_dedupFirst]
    refine List.mem_map.mpr ⟨r, hr, ?_⟩
    rcases hcase with h | h <;> simp [jsNullish, h]
  refine ⟨⟨"Unknown", seriesData d (Val.str "Unknown")⟩, ?_, rfl, ?_⟩
  · simp only [pivot]
    exact List.mem_map.mpr ⟨Val.str "Unknown", hg, rfl⟩
  · intro v hv
    rcases List.mem_map.mp hv with ⟨c, _, rfl⟩
    have hfind : findFrom (cellPred d (Val.str "Unknown") c) d.rows 0 = none := by
      apply findFrom_eq_none
      intro i hi
      have hsplit : splitOk d.raw i (Val.str "Unknown") = false := by
        simp only [splitOk, hk, hne, if_false]
        cases hraw : d.raw[i]? with
        | none =>
          simp only [rawIdAt, List.get?_eq_getElem?, hraw]
          decide
        | some rec =>
          have hmem : rec ∈ d.raw :=
            List.get?_mem (by rw [List.get?_eq_getElem?]; exact hraw)
          have hne2 := hnotU rec hmem
          simp [rawIdAt, List.get?_eq_getElem?, hraw, beq_eq_false_iff_ne, hne2]
      simp [cellPred, hsplit]
    simp [cellValue, hfind]

/-- Witness for C10 on a concrete table whose single record carries a null
split value. -/
theorem pivot_unknown_series_all_zero_w :
    ∃ s ∈ pivot d10w, s.name = "Unknown" ∧ ∀ v ∈ s.data, v = Val.num 0 :=
  pivot_unknown_series_all_zero d10w "k" (by decide) (by decide) (by decide) (by decide)

/-- C5: when no metric is specified by the caller, the plotted metric is the
first name of the fixed priority list `['tons','events','count','duration']`
that occurs among the columns (the list order expressing preference), and it
is then a metric column provided the non-metric columns avoid the reserved
metric names (as the source assumes throughout); when no priority name is
present the selection falls back to the last column, which under the
normalized layout (metric columns declared last) is the last declared metric
column. -/
theorem metric_selection (pre mets : List String) (hm : mets ≠ [])
    (hpre : ∀ c ∈ pre, c ∉ metricPriorityList) :
    (∀ (l1 l2 : List String) (m : String),
      metricPriorityList = l1 ++ m :: l2 →
      (∀ p ∈ l1, p ∉ pre ++ mets) →
      m ∈ pre ++ mets →
      selectMetric (pre ++ mets) = some m ∧ m ∈ mets) ∧
    ((∀ p ∈ metricPriorityList, p ∉ pre ++ mets) →
      selectMetric (pre ++ mets) = mets.getLast?) := by
  constructor
  · intro l1 l2 m hdecomp hl1 hmem
    have hfind : metricPriorityList.find? (fun x => (pre ++ mets).contains x) = some m := by
      rw [hdecomp]
      apply find?_append_cons
      · intro x hx
        simpa using hl1 x hx
      · simpa using hmem
    refine ⟨by simp only [selectMetric, hfind], ?_⟩
    have hmp : m ∈ metricPriorityList := by
      rw [hdecomp]
      exact List.mem_append_right l1 (List.mem_cons_self m l2)
    rcases List.mem_append.mp hmem with h | h
    · exact absurd hmp (hpre m h)
    · exact h
  · intro hnone
    have hfind : metricPriorityList.find? (fun x => (pre ++ mets).contains x) = none := by
      rw [List.find?_eq_none]
      intro x hx
      simpa using hnone x hx
    simp only [selectMetric, hfind]
    exact List.getLast?_append_of_ne_nil pre hm

/-- Witness for C5: with columns `["t", "count", "tons"]` the priority search
selects `tons` (the highest-priority present name) and it is a metric
column. -/
theorem metric_selection_w :
    selectMetric (["t"] ++ ["count", "tons"]) = some "tons" ∧ "tons" ∈ ["count", "tons"] :=
  (metric_selection ["t"] ["count", "tons"] (by decide) (by decide)).1
    [] ["events", "count", "duration"] "tons" rfl (by decide) (by decide)

/-- C4 (amended): over the spec-modelled normalized result, if `by` fields
were declared and the grouped result is non-empty, the pivot produces exactly
one Series per distinct value of the first `by` field after null/missing
values are replaced by `Unknown`; if no `by` field was declared the pivot
produces exactly one Series with the generic name `Series` (this also holds
for an empty result, declared `by` fields or not — see the counterexample). -/
theorem pivot_split_series (k : String) (ks mets : List String)
    (recs : List GroupedRecord)
    (hk1 : k ≠ "t") (hk2 : k ≠ "")
    (hlen : ∀ r ∈ recs, r.byVals.length = (k :: ks).length) :
    (recs ≠ [] →
      (pivot (normalize (k :: ks) mets recs)).map Series.name =
        (dedupFirst ((normalize (k :: ks) mets recs).raw.map
          (fun r => jsNullish (idGet r._id k) (Val.str "Unknown")))).map jsToString) ∧
    (pivot (normalize ([] : List String) mets recs)).map Series.name = ["Series"] := by
  constructor
  · intro hrecs
    obtain ⟨r0, rest, hrecs0⟩ : ∃ r0 rest, recs = r0 :: rest := by
      cases recs with
      | nil => exact absurd rfl hrecs
      | cons a l => exact ⟨a, l, rfl⟩
    have hsb : seriesBy (normalize (k :: ks) mets recs).raw = some k := by
      subst hrecs0
      have hz : ((k :: ks).zip r0.byVals).map Prod.fst = k :: ks := by
        apply List.map_fst_zip
        rw [hlen r0 (List.mem_cons_self r0 rest)]
      simp only [normalize, List.map_cons, seriesBy, hz, List.filter_cons]
      simp [hk1]
    simp only [pivot, groups, hsb, hk2, if_false, List.map_map]
    rfl
  · cases recs with
    | nil => rfl
    | cons r0 rest =>
      have hsb : seriesBy (normalize ([] : List String) mets (r0 :: rest)).raw = none := by
        simp [normalize, seriesBy]
      simp [pivot, groups, hsb, jsToString]

/-- Witness for C4 on two concrete grouped records with distinct split
values `A` and `B`. -/
theorem pivot_split_series_w :
    (pivot (normalize ["k"] ["count"] c4recs)).map Series.name =
      (dedupFirst ((normalize ["k"] ["count"] c4recs).raw.map
        (fun r => jsNullish (idGet r._id "k") (Val.str "Unknown")))).map jsToString :=
  (pivot_split_series "k" [] ["count"] c4recs (by decide) (by decide) (by decide)).1
    (by decide)

/-- Counterexample for C4 as stated: a declared `by` field with an empty
grouped result has zero distinct split-key values, yet the pivot produces
one (generic) Series, not zero. -/
theorem pivot_split_series_cex :
    (pivot (normalize ["k"] ["count"] ([] : List GroupedRecord))).length = 1 ∧
    (normalize ["k"] ["count"] ([] : List GroupedRecord)).raw = [] := by
  exact ⟨rfl, rfl⟩

/-- C1: on a Tabular Result whose rows are 1:1 aligned with its raw records
on the time key (the normalizer's invariant), for every split value `g` and
category `c` the pivot emits — in axis order, `seriesData` being the map of
`cellValue` over the axis — the selected-metric entry of the row whose raw
composite key matches both `c` (key `t`) and `g` (key `k`, the split key),
and emits `0` when no raw key matches; missing combinations are zero-filled,
never omitted. -/
theorem pivot_cell_lookup (d : TabularResult) (k : String) (g c : Val)
    (hk : seriesBy d.raw = some k) (hne : k ≠ "")
    (ht : 0 ≤ tIndex d)
    (hlen : d.rows.length = d.raw.length)
    (halign : ∀ i (h1 : i < d.rows.length) (h2 : i < d.raw.length),
      jsRowGet (d.rows.get ⟨i, h1⟩) (tIndex d) = idGet (d.raw.get ⟨i, h2⟩)._id "t") :
    seriesData d g = (categories d).map (fun x => cellValue d g x) ∧
    (∀ i (h1 : i < d.rows.length) (h2 : i < d.raw.length),
      idGet (d.raw.get ⟨i, h2⟩)._id "t" = c →
      idGet (d.raw.get ⟨i, h2⟩)._id k = g →
      (∀ j (h3 : j < d.raw.length),
        idGet (d.raw.get ⟨j, h3⟩)._id "t" = c →
        idGet (d.raw.get ⟨j, h3⟩)._id k = g → j = i) →
      cellValue d g c = jsRowGet (d.rows.get ⟨i, h1⟩) (metricIndex d.columns)) ∧
    ((∀ j (h3 : j < d.raw.length),
        ¬(idGet (d.raw.get ⟨j, h3⟩)._id "t" = c ∧ idGet (d.raw.get ⟨j, h3⟩)._id k = g)) →
      cellValue d g c = Val.num 0) := by
  have hchar : ∀ i (h1 : i < d.rows.length),
      cellPred d g c (d.rows.get ⟨i, h1⟩) i =
        ((idGet (d.raw.get ⟨i, hlen ▸ h1⟩)._id "t" == c)
          && (idGet (d.raw.get ⟨i, hlen ▸ h1⟩)._id k == g)) := by
    intro i h1
    have h2 : i < d.raw.length := hlen ▸ h1
    have hrg : d.raw.get? i = some (d.raw.get ⟨i, h2⟩) := List.get?_eq_get h2
    simp only [cellPred, if_pos ht, splitOk, hk, hne, if_false, rawIdAt, hrg,
      halign i h1 h2]
  refine ⟨rfl, ?_, ?_⟩
  · intro i h1 h2 htc hkg huniq
    have hfind : findFrom (cellPred d g c) d.rows 0 = some (d.rows.get ⟨i, h1⟩) := by
      apply findFrom_eq_get (cellPred d g c) d.rows 0 i h1
      · intro j hj hji
        rw [Nat.zero_add, hchar j hj]
        cases hb : (idGet (d.raw.get ⟨j, hlen ▸ hj⟩)._id "t" == c)
            && (idGet (d.raw.get ⟨j, hlen ▸ hj⟩)._id k == g) with
        | false => rfl
        | true =>
          rw [Bool.and_eq_true, beq_iff_eq, beq_iff_eq] at hb
          have := huniq j (hlen ▸ hj) hb.1 hb.2
          omega
      · rw [Nat.zero_add, hchar i h1, Bool.and_eq_true, beq_iff_eq, beq_iff_eq]
        exact ⟨htc, hkg⟩
    simp [cellValue, hfind]
  · intro hnomatch
    have hfind : findFrom (cellPred d g c) d.rows 0 = none := by
      apply findFrom_eq_none
      intro i h1
      rw [Nat.zero_add, hchar i h1]
      cases hb : (idGet (d.raw.get ⟨i, hlen ▸ h1⟩)._id "t" == c)
          && (idGet (d.raw.get ⟨i, hlen ▸ h1⟩)._id k == g) with
      | false => rfl
      | true =>
        rw [Bool.and_eq_true, beq_iff_eq, beq_iff_eq] at hb
        exact absurd hb (hnomatch i (hlen ▸ h1))
    simp [cellValue, hfind]

/-- Witness for C1 on a concrete aligned one-row table: the emitted cell is
the row's metric value. -/
theorem pivot_cell_lookup_w :
    cellValue d1w (Val.str "A") (Val.str "d1") = Val.num 2 := by
  have h := pivot_cell_lookup d1w "k" (Val.str "A") (Val.str "d1")
    (by decide) (by decide) (by decide) (by decide)
    (by
      intro i h1 h2
      have hi : i = 0 := by
        simp [d1w] at h1
        omega
      subst hi
      rfl)
  have h2 := h.2.1 0 (by decide) (by decide) rfl rfl
    (by
      intro j h3 _ _
      simp [d1w] at h3
      omega)
  rw [h2]
  decide

end APMS
